import Mathlib

/-!
Verification of the Explorer API digest routine (`generateExplorerDigest`
in `src/lib/api-client.js`).

The JavaScript function is shallowly embedded below:
* JS strings are Lean `String`s; JS `String.prototype.length` and the
  default `Array.prototype.sort()` comparator operate on UTF-16 code
  units, which we model explicitly (`utf16Units`, `jsLength`, `jsStrLt`).
* A JS object of filters is an association list `FilterSet` whose keys are
  unique (JS objects cannot hold duplicate keys); values are scalars
  (strings or integral numbers) or arrays of scalars, per the data model.
* `crypto.createHmac('sha1', secret).update(s).digest('hex')` is an
  executable HMAC-SHA1 over the UTF-8 bytes of `secret` and `s`,
  hex-encoded in lowercase.
* The `throw` on a short secret becomes `Except.error`.
-/

/-! ## JS string model: UTF-16 code units -/

/-- The UTF-16 code units of a character.  A JS string is a sequence of
UTF-16 code units; code points at or above `0x10000` are a surrogate pair. -/
def utf16Units (c : Char) : List Nat :=
  if c.toNat < 0x10000 then [c.toNat]
  else [0xD800 + (c.toNat - 0x10000) / 0x400, 0xDC00 + (c.toNat - 0x10000) % 0x400]

/-- The UTF-16 code-unit sequence of a string. -/
def utf16Str (s : String) : List Nat := (s.data.map utf16Units).flatten

/-- JS `String.prototype.length`: the number of UTF-16 code units. -/
def jsLength (s : String) : Nat := (utf16Str s).length

/-- Strict lexicographic order on lists of naturals. -/
def lexNatLt : List Nat → List Nat → Bool
  | _, [] => false
  | [], _ :: _ => true
  | a :: as, b :: bs => if a < b then true else if b < a then false else lexNatLt as bs

/-- JS string comparison (`<` on strings, as used by the default
`Array.prototype.sort` comparator, ECMA-262 abstract relational comparison):
lexicographic on UTF-16 code units. -/
def jsStrLt (s t : String) : Bool := lexNatLt (utf16Str s) (utf16Str t)

/-- The non-strict order that JS `sort()` realizes: `a` may precede `b`
iff `b` is not strictly smaller than `a`. -/
def jsKeyLe (a b : String) : Prop := jsStrLt b a = false

instance : DecidableRel jsKeyLe := fun _ _ => inferInstanceAs (Decidable (_ = false))

/-! ## JS number stringification (canonical decimal) -/

/-- Decimal digit characters of a natural number, most significant first.
Structurally recursive on a fuel argument so that the kernel can evaluate
it; the fuel is adequate whenever `n < 10 ^ fuel`. -/
def natDecAux (fuel n : Nat) : List Char :=
  match fuel with
  | 0 => []
  | fuel + 1 =>
    if n < 10 then [Nat.digitChar n]
    else natDecAux fuel (n / 10) ++ [Nat.digitChar (n % 10)]

/-- Decimal representation of a natural number. -/
def natDec (n : Nat) : String := String.mk (natDecAux (n + 1) n)

/-- The decimal digits of a natural number, most significant first. -/
def natDigits (m : Nat) : List Char := natDecAux (m + 1) m

/-- ECMA-262 exponential notation for an integral value at or above
`10 ^ 21`: the significand with trailing zeros stripped, a decimal point
when it has more than one digit, then `e+` and the exponent, as in
`String(1e21) = "1e+21"`. -/
def jsNatExponential (m : Nat) : String :=
  let ds := natDigits m
  match (ds.reverse.dropWhile (fun c => c == '0')).reverse with
  | [] => "0"
  | d :: rest =>
    String.mk [d] ++ (if rest.isEmpty then "" else "." ++ String.mk rest) ++
      "e+" ++ natDec (ds.length - 1)

/-- JS `String(m)` for a nonnegative integral number (`Number::toString`,
ECMA-262 6.1.6.1.20): plain canonical decimal below `10 ^ 21`, exponential
notation at or above it.  The unbounded-`Nat` model is exact for integral
doubles whose decimal expansion round-trips — all magnitudes up to
`2 ^ 53` and exactly representable values such as `10 ^ 21`; the digit
rounding of wider non-representable doubles is a floating-point concern
outside this integral model. -/
def jsNatToString (m : Nat) : String :=
  if m < 10 ^ 21 then natDec m else jsNatExponential m

/-- JS `String(n)` for an integral number: a sign, then the magnitude. -/
def jsIntToString (n : Int) : String :=
  if n < 0 then "-" ++ jsNatToString n.natAbs else jsNatToString n.toNat

/-! ## Filter data model -/

/-- A scalar filter value: a string or an (integral) number. -/
inductive JsScalar where
  | str (s : String)
  | num (n : Int)
deriving DecidableEq

/-- A filter value: a scalar or an array of scalars. -/
inductive FilterValue where
  | scalar (v : JsScalar)
  | list (vs : List JsScalar)
deriving DecidableEq

/-- A JS object of filters, as an association list in insertion order.
JS objects cannot hold two entries with the same key, so theorems that
depend on it assume the key list has no duplicates. -/
abbrev FilterSet := List (String × FilterValue)

/-- JS stringification of a scalar, as performed by `Array.prototype.join`. -/
def jsScalarToString : JsScalar → String
  | .str s => s
  | .num n => jsIntToString n

/-! ## The digest routine (`src/lib/api-client.js`) -/

/-- `const excludeFromDigest = ['order', 'page[number]', 'page[size]']` -/
def excludeFromDigest : List String := ["order", "page[number]", "page[size]"]

/-- `Object.keys(filters).filter(key => !excludeFromDigest.includes(key)).sort()`.
The default `sort()` compares strings by UTF-16 code units; with unique keys
any conforming sort returns the same list, so we use insertion sort. -/
def filterKeys (filters : FilterSet) : List String :=
  List.insertionSort jsKeyLe
    ((filters.map Prod.fst).filter (fun k => !excludeFromDigest.contains k))

/-- The `parts` array: for each sorted key push the key, then the value
(all elements in order for an array value), stringified by `join`. -/
def filterParts (filters : FilterSet) : List String :=
  (filterKeys filters).flatMap fun key =>
    match filters.lookup key with
    | some (FilterValue.list vs) => key :: vs.map jsScalarToString
    | some (FilterValue.scalar v) => [key, jsScalarToString v]
    | none => []

/-- `const filterString = parts.join('|')` -/
def filterString (filters : FilterSet) : String :=
  String.intercalate "|" (filterParts filters)

/-! ## UTF-8 encoding (Node hashes the UTF-8 bytes of its string inputs) -/

/-- UTF-8 encoding of one character. -/
def utf8EncodeChar (c : Char) : List Nat :=
  let n := c.toNat
  if n < 0x80 then [n]
  else if n < 0x800 then [0xC0 + n / 0x40, 0x80 + n % 0x40]
  else if n < 0x10000 then
    [0xE0 + n / 0x1000, 0x80 + n / 0x40 % 0x40, 0x80 + n % 0x40]
  else
    [0xF0 + n / 0x40000, 0x80 + n / 0x1000 % 0x40, 0x80 + n / 0x40 % 0x40,
      0x80 + n % 0x40]

/-- UTF-8 bytes of a string. -/
def utf8Bytes (s : String) : List Nat := (s.data.map utf8EncodeChar).flatten

/-! ## SHA-1 and HMAC-SHA1 over byte lists (bytes are `Nat`s below 256) -/

/-- Rotate a 32-bit word left by `n` bits (argument below `2 ^ 32`). -/
def rotl32 (x n : Nat) : Nat := ((x <<< n) % 2 ^ 32) ||| (x >>> (32 - n))

/-- SHA-1 round function. -/
def sha1F (i b c d : Nat) : Nat :=
  if i < 20 then (b &&& c) ||| ((b ^^^ 0xFFFFFFFF) &&& d)
  else if i < 40 then b ^^^ c ^^^ d
  else if i < 60 then (b &&& c) ||| (b &&& d) ||| (c &&& d)
  else b ^^^ c ^^^ d

/-- SHA-1 round constants. -/
def sha1K (i : Nat) : Nat :=
  if i < 20 then 0x5A827999
  else if i < 40 then 0x6ED9EBA1
  else if i < 60 then 0x8F1BBCDC
  else 0xCA62C1D6

/-- Big-endian word from a list of bytes. -/
def bytesToWord (bs : List Nat) : Nat := bs.foldl (fun acc b => acc * 256 + b) 0

/-- The sixteen 32-bit big-endian words of a 64-byte chunk. -/
def chunkWords (chunk : List Nat) : List Nat :=
  (List.range 16).map fun i => bytesToWord ((chunk.drop (4 * i)).take 4)

/-- Extend sixteen words to the eighty-word message schedule. -/
def extendWords (ws : List Nat) : List Nat :=
  (List.range 64).foldl
    (fun ws _ =>
      ws ++ [rotl32 ((ws.getD (ws.length - 3) 0) ^^^ (ws.getD (ws.length - 8) 0) ^^^
        (ws.getD (ws.length - 14) 0) ^^^ (ws.getD (ws.length - 16) 0)) 1])
    ws

/-- The five-word SHA-1 state. -/
structure Sha1State where
  a : Nat
  b : Nat
  c : Nat
  d : Nat
  e : Nat

/-- Process one 64-byte chunk. -/
def sha1ProcessChunk (st : Sha1State) (chunk : List Nat) : Sha1State :=
  let ws := extendWords (chunkWords chunk)
  let fin := (List.range 80).foldl
    (fun t i =>
      let temp := (rotl32 t.a 5 + sha1F i t.b t.c t.d + t.e + sha1K i + ws.getD i 0) % 2 ^ 32
      Sha1State.mk temp t.a (rotl32 t.b 30) t.c t.d)
    st
  Sha1State.mk ((st.a + fin.a) % 2 ^ 32) ((st.b + fin.b) % 2 ^ 32)
    ((st.c + fin.c) % 2 ^ 32) ((st.d + fin.d) % 2 ^ 32) ((st.e + fin.e) % 2 ^ 32)

/-- Split a byte list into chunks of 64.  Structurally recursive on a fuel
argument so that the kernel can evaluate it; each step consumes at least
one element, so `l.length` fuel is adequate. -/
def chunksOf64Aux : Nat → List Nat → List (List Nat)
  | 0, _ => []
  | _, [] => []
  | fuel + 1, b :: rest => ((b :: rest).take 64) :: chunksOf64Aux fuel ((b :: rest).drop 64)

/-- Split a byte list into chunks of 64. -/
def chunksOf64 (l : List Nat) : List (List Nat) := chunksOf64Aux l.length l

/-- The eight big-endian bytes of the 64-bit message bit length. -/
def lenBytes (n : Nat) : List Nat :=
  [n / 2 ^ 56 % 256, n / 2 ^ 48 % 256, n / 2 ^ 40 % 256, n / 2 ^ 32 % 256,
    n / 2 ^ 24 % 256, n / 2 ^ 16 % 256, n / 2 ^ 8 % 256, n % 256]

/-- SHA-1 padding: a `0x80` byte, zeros to 56 mod 64, then the bit length. -/
def sha1Pad (msg : List Nat) : List Nat :=
  msg ++ [0x80] ++ List.replicate ((119 - msg.length % 64) % 64) 0 ++
    lenBytes (8 * msg.length)

/-- SHA-1 initial state. -/
def sha1Init : Sha1State :=
  ⟨0x67452301, 0xEFCDAB89, 0x98BADCFE, 0x10325476, 0xC3D2E1F0⟩

/-- The four big-endian bytes of a 32-bit word. -/
def wordBytes (w : Nat) : List Nat :=
  [w / 2 ^ 24 % 256, w / 2 ^ 16 % 256, w / 2 ^ 8 % 256, w % 256]

/-- SHA-1 of a byte list: a 20-byte digest. -/
def sha1 (msg : List Nat) : List Nat :=
  let fin := (chunksOf64 (sha1Pad msg)).foldl sha1ProcessChunk sha1Init
  wordBytes fin.a ++ wordBytes fin.b ++ wordBytes fin.c ++ wordBytes fin.d ++
    wordBytes fin.e

/-- HMAC-SHA1 (RFC 2104) with a 64-byte block size. -/
def hmacSha1 (key msg : List Nat) : List Nat :=
  let k0 := if 64 < key.length then sha1 key else key
  let kp := k0 ++ List.replicate (64 - k0.length) 0
  sha1 ((kp.map (fun b => b ^^^ 0x5C)) ++ sha1 ((kp.map (fun b => b ^^^ 0x36)) ++ msg))

/-- The sixteen lowercase hexadecimal digit characters, 0-9 then a-f. -/
def hexDigits : List Char := (List.range 16).map Nat.digitChar

/-- The lowercase hexadecimal digit for a nibble. -/
def hexDigit (n : Nat) : Char := hexDigits.getD n '0'

/-- Two lowercase hexadecimal characters for a byte. -/
def byteHex (b : Nat) : List Char := [hexDigit (b / 16 % 16), hexDigit (b % 16)]

/-- Node's `digest('hex')`: lowercase hexadecimal encoding of a byte list. -/
def hexEncode (bs : List Nat) : String := String.mk ((bs.map byteHex).flatten)

/-- The message of the `throw` on an invalid secret. -/
def digestErrorMessage : String :=
  "ALTMETRIC_EXPLORER_API_SECRET must be at least 16 characters"

/-- `generateExplorerDigest(filters, secret)` from `src/lib/api-client.js`.
`!secret` is true for the empty string (and for a missing argument, which
behaves the same); `secret.length` counts UTF-16 code units. -/
def generateExplorerDigest (filters : FilterSet) (secret : String) :
    Except String String :=
  if secret = "" ∨ jsLength secret < 16 then
    Except.error digestErrorMessage
  else
    Except.ok (hexEncode (hmacSha1 (utf8Bytes secret) (utf8Bytes (filterString filters))))

/-! ## Properties of the lexicographic comparison -/

theorem lexNatLt_asymm : ∀ {a b : List Nat}, lexNatLt a b = true → lexNatLt b a = false := by
  intro a
  induction a with
  | nil => intro b h; cases b <;> simp [lexNatLt]
  | cons x xs ih =>
    intro b h
    cases b with
    | nil => simp [lexNatLt] at h
    | cons y ys =>
      simp only [lexNatLt] at h ⊢
      by_cases h1 : x < y
      · rw [if_neg (by omega), if_pos h1]
      · by_cases h2 : y < x
        · rw [if_neg h1, if_pos h2] at h; exact absurd h (by simp)
        · rw [if_neg h1, if_neg h2] at h
          rw [if_neg h2, if_neg h1]
          exact ih h

theorem lexNatLt_connex : ∀ {a b : List Nat},
    lexNatLt a b = false → lexNatLt b a = false → a = b := by
  intro a
  induction a with
  | nil => intro b hab _; cases b with
    | nil => rfl
    | cons y ys => simp [lexNatLt] at hab
  | cons x xs ih =>
    intro b hab hba
    cases b with
    | nil => simp [lexNatLt] at hba
    | cons y ys =>
      simp only [lexNatLt] at hab hba
      by_cases h1 : x < y
      · rw [if_pos h1] at hab; exact absurd hab (by simp)
      · by_cases h2 : y < x
        · rw [if_pos h2] at hba; exact absurd hba (by simp)
        · rw [if_neg h1, if_neg h2] at hab
          have hx : x = y := by omega
          rw [if_neg h2, if_neg h1] at hba
          rw [hx, ih hab hba]

theorem lexNatLt_trans : ∀ {a b c : List Nat},
    lexNatLt a b = true → lexNatLt b c = true → lexNatLt a c = true := by
  intro a
  induction a with
  | nil =>
    intro b c _ h2
    cases c with
    | nil => cases b <;> simp [lexNatLt] at h2
    | cons z zs => simp [lexNatLt]
  | cons x xs ih =>
    intro b c h1 h2
    cases b with
    | nil => simp [lexNatLt] at h1
    | cons y ys =>
      cases c with
      | nil => simp [lexNatLt] at h2
      | cons z zs =>
        simp only [lexNatLt] at h1 h2 ⊢
        by_cases hxy : x < y
        · by_cases hyz : y < z
          · rw [if_pos (by omega)]
          · rw [if_neg hyz] at h2
            by_cases hzy : z < y
            · rw [if_pos hzy] at h2; exact absurd h2 (by simp)
            · have : y = z := by omega
              rw [if_pos (by omega)]
        · rw [if_neg hxy] at h1
          by_cases hyx : y < x
          · rw [if_pos hyx] at h1; exact absurd h1 (by simp)
          · rw [if_neg hyx] at h1
            have hx : x = y := by omega
            by_cases hyz : y < z
            · rw [if_pos (by omega)]
            · rw [if_neg hyz] at h2
              by_cases hzy : z < y
              · rw [if_pos hzy] at h2; exact absurd h2 (by simp)
              · rw [if_neg hzy] at h2
                have hy : y = z := by omega
                rw [if_neg (by omega), if_neg (by omega)]
                exact ih h1 h2

/-! ## Injectivity of the UTF-16 encoding -/

theorem char_eq_of_toNat_eq {c d : Char} (h : c.toNat = d.toNat) : c = d :=
  Char.ext (UInt32.ext h)

theorem char_toNat_valid (c : Char) :
    c.toNat < 0xD800 ∨ (0xDFFF < c.toNat ∧ c.toNat < 0x110000) := c.valid

theorem utf16Units_eq (c : Char) :
    (c.toNat < 0x10000 ∧ utf16Units c = [c.toNat]) ∨
      (0x10000 ≤ c.toNat ∧ utf16Units c =
        [0xD800 + (c.toNat - 0x10000) / 0x400, 0xDC00 + (c.toNat - 0x10000) % 0x400]) := by
  by_cases h : c.toNat < 0x10000
  · exact Or.inl ⟨h, by simp [utf16Units, h]⟩
  · exact Or.inr ⟨by omega, by simp [utf16Units, h]⟩

theorem utf16Flatten_inj : ∀ (l1 l2 : List Char),
    (l1.map utf16Units).flatten = (l2.map utf16Units).flatten → l1 = l2 := by
  intro l1
  induction l1 with
  | nil =>
    intro l2 h
    cases l2 with
    | nil => rfl
    | cons c cs =>
      exfalso
      rcases utf16Units_eq c with ⟨_, he⟩ | ⟨_, he⟩ <;>
        simp only [List.map_cons, List.flatten_cons, List.map_nil, List.flatten_nil, he] at h <;>
        exact absurd h (by simp)
  | cons c cs ih =>
    intro l2 h
    cases l2 with
    | nil =>
      exfalso
      rcases utf16Units_eq c with ⟨_, he⟩ | ⟨_, he⟩ <;>
        simp only [List.map_cons, List.flatten_cons, List.map_nil, List.flatten_nil, he] at h <;>
        exact absurd h (by simp)
    | cons d ds =>
      rcases utf16Units_eq c with ⟨hc, hec⟩ | ⟨hc, hec⟩ <;>
        rcases utf16Units_eq d with ⟨hd, hed⟩ | ⟨hd, hed⟩ <;>
          simp only [List.map_cons, List.flatten_cons, hec, hed, List.cons_append,
            List.nil_append, List.cons.injEq] at h
      · have hcd := char_eq_of_toNat_eq h.1
        rw [hcd, ih ds h.2]
      · exfalso
        have hv := char_toNat_valid c
        have hv2 := char_toNat_valid d
        omega
      · exfalso
        have hv := char_toNat_valid c
        have hv2 := char_toNat_valid d
        omega
      · have hn : c.toNat = d.toNat := by omega
        have hcd := char_eq_of_toNat_eq hn
        rw [hcd, ih ds h.2.2]

theorem utf16Str_injective {s t : String} (h : utf16Str s = utf16Str t) : s = t :=
  String.ext (utf16Flatten_inj _ _ h)

/-! ## The sort comparator is a total preorder, antisymmetric on strings -/

instance : IsTotal String jsKeyLe where
  total a b := by
    unfold jsKeyLe jsStrLt
    by_cases h : lexNatLt (utf16Str b) (utf16Str a) = true
    · exact Or.inr (lexNatLt_asymm h)
    · exact Or.inl (by simpa using h)

instance : IsTrans String jsKeyLe where
  trans a b c hab hbc := by
    unfold jsKeyLe jsStrLt at *
    by_cases h : lexNatLt (utf16Str c) (utf16Str a) = true
    · exfalso
      by_cases hbc2 : lexNatLt (utf16Str b) (utf16Str c) = true
      · have hba := lexNatLt_trans hbc2 h
        rw [hba] at hab
        exact absurd hab (by simp)
      · have heq := lexNatLt_connex hbc (by simpa using hbc2)
        rw [heq] at h
        rw [h] at hab
        exact absurd hab (by simp)
    · simpa using h

instance : IsAntisymm String jsKeyLe where
  antisymm a b hab hba := utf16Str_injective (lexNatLt_connex hba hab)

/-! ## The canonicalization pipeline, named pieces -/

/-- The non-excluded key names, in insertion order. -/
def nonExcludedKeys (filters : FilterSet) : List String :=
  (filters.map Prod.fst).filter (fun k => !excludeFromDigest.contains k)

/-- The tokens contributed by one key: the key, then its value tokens. -/
def keyTokens (filters : FilterSet) (key : String) : List String :=
  match filters.lookup key with
  | some (FilterValue.list vs) => key :: vs.map jsScalarToString
  | some (FilterValue.scalar v) => [key, jsScalarToString v]
  | none => []

theorem filterKeys_def (filters : FilterSet) :
    filterKeys filters = List.insertionSort jsKeyLe (nonExcludedKeys filters) := rfl

theorem filterParts_def (filters : FilterSet) :
    filterParts filters = (filterKeys filters).flatMap (keyTokens filters) := rfl

theorem filterKeys_sorted (filters : FilterSet) :
    List.Sorted jsKeyLe (filterKeys filters) :=
  List.sorted_insertionSort _ _

theorem filterKeys_perm (filters : FilterSet) :
    (filterKeys filters).Perm (nonExcludedKeys filters) :=
  List.perm_insertionSort _ _

theorem mem_filterKeys {filters : FilterSet} {k : String} :
    k ∈ filterKeys filters ↔ k ∈ nonExcludedKeys filters :=
  (filterKeys_perm filters).mem_iff

theorem mem_nonExcludedKeys {filters : FilterSet} {k : String} :
    k ∈ nonExcludedKeys filters ↔
      k ∈ filters.map Prod.fst ∧ excludeFromDigest.contains k = false := by
  simp [nonExcludedKeys, List.mem_filter]

/-- Two filter sets whose non-excluded keys are a permutation of each other
have identical sorted key lists. -/
theorem filterKeys_eq_of_perm {l1 l2 : FilterSet}
    (h : (nonExcludedKeys l1).Perm (nonExcludedKeys l2)) :
    filterKeys l1 = filterKeys l2 :=
  List.eq_of_perm_of_sorted
    ((filterKeys_perm l1).trans (h.trans (filterKeys_perm l2).symm))
    (filterKeys_sorted l1) (filterKeys_sorted l2)

/-- Equal sorted keys and equal lookups on them give equal token lists. -/
theorem filterParts_congr {l1 l2 : FilterSet}
    (hkeys : filterKeys l1 = filterKeys l2)
    (hlook : ∀ k ∈ filterKeys l1, l1.lookup k = l2.lookup k) :
    filterParts l1 = filterParts l2 := by
  rw [filterParts_def, filterParts_def, ← hkeys, List.flatMap_def, List.flatMap_def]
  congr 1
  apply List.map_congr_left
  intro k hk
  unfold keyTokens
  rw [hlook k hk]

/-- Equal token lists give equal digest results, for any secret. -/
theorem generateExplorerDigest_congr {l1 l2 : FilterSet}
    (h : filterParts l1 = filterParts l2) (s : String) :
    generateExplorerDigest l1 s = generateExplorerDigest l2 s := by
  unfold generateExplorerDigest filterString
  rw [h]

/-- On a valid secret the function takes its success branch. -/
theorem generateExplorerDigest_ok (filters : FilterSet) (s : String)
    (hs : 16 ≤ jsLength s) :
    generateExplorerDigest filters s =
      Except.ok (hexEncode (hmacSha1 (utf8Bytes s) (utf8Bytes (filterString filters)))) := by
  unfold generateExplorerDigest
  rw [if_neg]
  rintro (rfl | h)
  · have h0 : jsLength "" = 0 := by decide
    omega
  · omega

/-- A key of the association list has a successful lookup. -/
theorem lookup_some_of_mem_keys {l : FilterSet} {k : String}
    (h : k ∈ l.map Prod.fst) : ∃ v, l.lookup k = some v := by
  induction l with
  | nil => simp at h
  | cons p t ih =>
    obtain ⟨a, b⟩ := p
    by_cases hk : k = a
    · subst hk
      exact ⟨b, by simp [List.lookup]⟩
    · have hk2 : (k == a) = false := by simp [hk]
      have hmem : k ∈ t.map Prod.fst := by
        simp only [List.map_cons, List.mem_cons] at h
        exact h.resolve_left hk
      obtain ⟨v, hv⟩ := ih hmem
      exact ⟨v, by simp [List.lookup, hk2, hv]⟩

/-- Lookups agree across a permutation when the keys are unique. -/
theorem lookup_eq_of_perm {l1 l2 : FilterSet} (h : l1.Perm l2)
    (hn : (l1.map Prod.fst).Nodup) (k : String) :
    l1.lookup k = l2.lookup k := by
  induction h with
  | nil => rfl
  | cons x h ih =>
    obtain ⟨x1, x2⟩ := x
    rw [List.map_cons, List.nodup_cons] at hn
    cases hk : (k == x1) <;> simp [List.lookup, hk, ih hn.2]
  | swap x y l =>
    obtain ⟨x1, x2⟩ := x
    obtain ⟨y1, y2⟩ := y
    rw [List.map_cons, List.map_cons, List.nodup_cons] at hn
    have hne : y1 ≠ x1 := fun he => hn.1 (by rw [he]; exact List.mem_cons_self _ _)
    cases hky : (k == y1) <;> cases hkx : (k == x1) <;>
      simp [List.lookup, hky, hkx]
    exact absurd ((eq_of_beq hky).symm.trans (eq_of_beq hkx)) hne
  | trans h1 h2 ih1 ih2 =>
    rw [ih1 hn, ih2 (((h1.map Prod.fst).nodup_iff).mp hn)]

/-! ## Decimal stringification lemmas -/

theorem digitChar_ne_comma (d : Nat) (hd : d < 10) : Nat.digitChar d ≠ ',' := by
  interval_cases d <;> decide

theorem natDecAux_succ (fuel n : Nat) :
    natDecAux (fuel + 1) n =
      if n < 10 then [Nat.digitChar n]
      else natDecAux fuel (n / 10) ++ [Nat.digitChar (n % 10)] := rfl

theorem natDecAux_digits {fuel n : Nat} (hn : n < 10 ^ fuel) :
    ∀ c ∈ natDecAux fuel n, ∃ d, d < 10 ∧ c = Nat.digitChar d := by
  induction fuel generalizing n with
  | zero => intro c hc; simp [natDecAux] at hc
  | succ fuel ih =>
    intro c hc
    simp only [natDecAux] at hc
    by_cases h : n < 10
    · rw [if_pos h] at hc
      simp at hc
      exact ⟨n, h, hc⟩
    · rw [if_neg h] at hc
      rcases List.mem_append.mp hc with h1 | h2
      · have hd : n / 10 < 10 ^ fuel :=
          Nat.div_lt_of_lt_mul (by rw [pow_succ] at hn; omega)
        exact ih hd c h1
      · simp at h2
        exact ⟨n % 10, by omega, h2⟩

theorem natDecAux_head {fuel n : Nat} (hn : n < 10 ^ (fuel + 1)) :
    ∃ c cs, natDecAux (fuel + 1) n = c :: cs ∧ (n ≠ 0 → c ≠ '0') := by
  induction fuel generalizing n with
  | zero =>
    have h : n < 10 := by simpa using hn
    refine ⟨Nat.digitChar n, [], by simp [natDecAux, h], ?_⟩
    intro hne
    interval_cases n
    · exact absurd rfl hne
    all_goals decide
  | succ fuel ih =>
    by_cases h : n < 10
    · refine ⟨Nat.digitChar n, [], by simp [natDecAux, h], ?_⟩
      intro hne
      interval_cases n
      · exact absurd rfl hne
      all_goals decide
    · have hd : n / 10 < 10 ^ (fuel + 1) :=
        Nat.div_lt_of_lt_mul (by rw [pow_succ] at hn; omega)
      obtain ⟨c, cs, heq, hc⟩ := ih hd
      refine ⟨c, cs ++ [Nat.digitChar (n % 10)], ?_, fun _ => hc (by omega)⟩
      rw [natDecAux_succ, if_neg h, heq]
      rfl

theorem nat_lt_ten_pow (n : Nat) : n < 10 ^ (n + 1) :=
  lt_of_lt_of_le (Nat.lt_pow_self (by norm_num) n)
    (Nat.pow_le_pow_right (by norm_num) (Nat.le_succ n))

theorem natDec_digits (n : Nat) :
    ∀ c ∈ (natDec n).data, ∃ d, d < 10 ∧ c = Nat.digitChar d :=
  natDecAux_digits (nat_lt_ten_pow n)

theorem natDec_head (n : Nat) :
    ∃ c cs, (natDec n).data = c :: cs ∧ (n ≠ 0 → c ≠ '0') := by
  obtain ⟨c, cs, heq, hc⟩ := natDecAux_head (nat_lt_ten_pow n)
  exact ⟨c, cs, by rw [show (natDec n).data = natDecAux (n + 1) n from rfl, heq], hc⟩

theorem jsNatToString_of_lt {m : Nat} (h : m < 10 ^ 21) :
    jsNatToString m = natDec m := by
  unfold jsNatToString
  rw [if_pos h]

theorem jsIntToString_no_comma (n : Int) (hb : n.natAbs < 10 ^ 21) :
    ',' ∉ (jsIntToString n).data := by
  intro hmem
  by_cases h : n < 0
  · simp only [jsIntToString, if_pos h, jsNatToString_of_lt hb,
      String.data_append] at hmem
    rcases List.mem_append.mp hmem with h1 | h2
    · have h1m : (',' : Char) = '-' := by simpa using h1
      exact (by decide : ¬ ((',' : Char) = '-')) h1m
    · obtain ⟨d, hd, hcd⟩ := natDec_digits n.natAbs _ h2
      exact digitChar_ne_comma d hd hcd.symm
  · have hb2 : n.toNat < 10 ^ 21 := by omega
    simp only [jsIntToString, if_neg h, jsNatToString_of_lt hb2] at hmem
    obtain ⟨d, hd, hcd⟩ := natDec_digits n.toNat _ hmem
    exact digitChar_ne_comma d hd hcd.symm

theorem jsIntToString_head_pos {n : Int} (h : 0 < n) (hb : n.natAbs < 10 ^ 21) :
    ((jsIntToString n).data).head? ≠ some '0' := by
  have hb2 : n.toNat < 10 ^ 21 := by omega
  simp only [jsIntToString, if_neg (by omega : ¬ n < 0), jsNatToString_of_lt hb2]
  obtain ⟨c, cs, heq, hc⟩ := natDec_head n.toNat
  rw [heq]
  intro hcontra
  exact hc (by omega) (Option.some.inj hcontra)

/-! ## Shape of the hex-encoded HMAC output -/

theorem sha1_length (msg : List Nat) : (sha1 msg).length = 20 := by
  simp [sha1, wordBytes]

theorem hmacSha1_length (key msg : List Nat) : (hmacSha1 key msg).length = 20 :=
  sha1_length _

theorem hexDigit_mem (n : Nat) : hexDigit n ∈ hexDigits := by
  by_cases h : n < 16
  · interval_cases n <;> decide
  · have hl : hexDigits.length ≤ n := by
      have h16 : hexDigits.length = 16 := by decide
      omega
    unfold hexDigit
    rw [List.getD_eq_default _ _ hl]
    decide

theorem hexEncode_length (bs : List Nat) : (hexEncode bs).length = 2 * bs.length := by
  induction bs with
  | nil => rfl
  | cons b t ih =>
    simp only [hexEncode, byteHex, String.length_mk, List.map_cons, List.flatten_cons,
      List.length_append, List.length_cons, List.length_nil, List.length_map] at ih ⊢
    omega

theorem hexEncode_chars (bs : List Nat) : ∀ c ∈ (hexEncode bs).data, c ∈ hexDigits := by
  intro c hc
  rw [show (hexEncode bs).data = (bs.map byteHex).flatten from rfl] at hc
  rcases List.mem_flatten.mp hc with ⟨l, hl, hcl⟩
  rcases List.mem_map.mp hl with ⟨b, _, rfl⟩
  simp only [byteHex, List.mem_cons, List.not_mem_nil, or_false] at hcl
  rcases hcl with rfl | rfl <;> exact hexDigit_mem _

/-! ## The code-point order named by the spec -/

/-- The key order the spec asserts: compare strings character by character
by Unicode code point.  This definition follows the spec wording, for
comparison against `jsStrLt` (the order the code realizes). -/
def specCodepointLt (s t : String) : Bool :=
  lexNatLt (s.data.map Char.toNat) (t.data.map Char.toNat)

theorem utf16Flatten_bmp (l : List Char) (h : ∀ c ∈ l, c.toNat < 0x10000) :
    (l.map utf16Units).flatten = l.map Char.toNat := by
  induction l with
  | nil => rfl
  | cons c cs ih =>
    have hc := h c (List.mem_cons_self _ _)
    simp only [List.map_cons, List.flatten_cons, utf16Units, if_pos hc,
      List.singleton_append, List.cons.injEq]
    exact ⟨trivial, ih (fun d hd => h d (List.mem_cons_of_mem _ hd))⟩

theorem utf16Str_bmp {s : String} (h : ∀ c ∈ s.data, c.toNat < 0x10000) :
    utf16Str s = s.data.map Char.toNat :=
  utf16Flatten_bmp s.data h

theorem jsStrLt_eq_codepoint {s t : String}
    (hs : ∀ c ∈ s.data, c.toNat < 0x10000) (ht : ∀ c ∈ t.data, c.toNat < 0x10000) :
    jsStrLt s t = specCodepointLt s t := by
  unfold jsStrLt specCodepointLt
  rw [utf16Str_bmp hs, utf16Str_bmp ht]

/-! ## Further congruence lemmas -/

/-- Equal sorted keys and equal per-key tokens give equal token lists. -/
theorem filterParts_congr_tokens {l1 l2 : FilterSet}
    (hkeys : filterKeys l1 = filterKeys l2)
    (htok : ∀ k ∈ filterKeys l1, keyTokens l1 k = keyTokens l2 k) :
    filterParts l1 = filterParts l2 := by
  rw [filterParts_def, filterParts_def, ← hkeys, List.flatMap_def, List.flatMap_def]
  congr 1
  exact List.map_congr_left htok

/-- Looking up around a single replaced entry: the results agree, or both
find the two replaced values. -/
theorem lookup_append_cons (pre post : FilterSet) (k key : String)
    (x y : FilterValue) :
    (pre ++ (k, x) :: post).lookup key = (pre ++ (k, y) :: post).lookup key ∨
      ((pre ++ (k, x) :: post).lookup key = some x ∧
        (pre ++ (k, y) :: post).lookup key = some y) := by
  induction pre with
  | nil =>
    cases hk : (key == k)
    · exact Or.inl (by simp [List.lookup, hk])
    · exact Or.inr ⟨by simp [List.lookup, hk], by simp [List.lookup, hk]⟩
  | cons p t ih =>
    obtain ⟨a, b⟩ := p
    cases hk : (key == a)
    · rcases ih with h | ⟨h1, h2⟩
      · exact Or.inl (by simp [List.lookup, hk]; exact h)
      · exact Or.inr ⟨by simp [List.lookup, hk]; exact h1,
          by simp [List.lookup, hk]; exact h2⟩
    · exact Or.inl (by simp [List.lookup, hk])

/-! ## Concrete fixtures used by witnesses and counterexamples -/

/-- The valid secret used throughout the repository tests. -/
def validSecret : String := "this-is-a-valid-secret-key"

/-- The worked example of the spec. -/
def climateFilters : FilterSet :=
  [("q", FilterValue.scalar (JsScalar.str "climate")),
   ("type", FilterValue.list [JsScalar.str "article", JsScalar.str "dataset"])]

/-- A one-character key above the Basic Multilingual Plane (U+10000). -/
def astralKey : String := String.mk [Char.ofNat 0x10000]

/-- A one-character key at the top of the Basic Multilingual Plane (U+FFFF). -/
def bmpMaxKey : String := String.mk [Char.ofNat 0xFFFF]

/-- Two keys whose UTF-16 code-unit order and code-point order disagree. -/
def c5Filters : FilterSet :=
  [(bmpMaxKey, FilterValue.scalar (JsScalar.str "1")),
   (astralKey, FilterValue.scalar (JsScalar.str "2"))]

/-! ## Claims -/

/-- C1: the digest is unchanged by adding, removing, or changing the values
of the excluded keys `order`, `page[number]`, `page[size]`: two filter sets
that agree on all non-excluded keys produce identical digests under the
same valid secret. -/
theorem c1_excluded_keys_irrelevant (l1 l2 : FilterSet) (s : String)
    (hsec : 16 ≤ jsLength s)
    (hkeys : (nonExcludedKeys l1).Perm (nonExcludedKeys l2))
    (hlook : ∀ k ∈ nonExcludedKeys l1, l1.lookup k = l2.lookup k) :
    generateExplorerDigest l1 s = generateExplorerDigest l2 s :=
  generateExplorerDigest_congr
    (filterParts_congr (filterKeys_eq_of_perm hkeys)
      (fun k hk => hlook k (mem_filterKeys.mp hk))) s

/-- Witness for C1: the repository test pair with different `order` values. -/
theorem c1_witness :
    generateExplorerDigest
        [("q", FilterValue.scalar (JsScalar.str "test")),
         ("order", FilterValue.scalar (JsScalar.str "score_desc"))] validSecret =
      generateExplorerDigest
        [("q", FilterValue.scalar (JsScalar.str "test")),
         ("order", FilterValue.scalar (JsScalar.str "date_desc"))] validSecret :=
  c1_excluded_keys_irrelevant _ _ _ (by decide) (by decide) (by decide)

/-- C2: the string signed is the non-excluded keys in sorted order, each key
followed by its value tokens (all list elements in original order, the
single value otherwise), joined by a pipe with no leading or trailing
separator; the worked example produces `q|climate|type|article|dataset`. -/
theorem c2_canonical_string :
    (∀ filters s, 16 ≤ jsLength s →
      generateExplorerDigest filters s =
        Except.ok (hexEncode (hmacSha1 (utf8Bytes s)
          (utf8Bytes (String.intercalate "|"
            ((filterKeys filters).flatMap (keyTokens filters))))))) ∧
    (∀ filters k vs, filters.lookup k = some (FilterValue.list vs) →
        keyTokens filters k = k :: vs.map jsScalarToString) ∧
    (∀ filters k v, filters.lookup k = some (FilterValue.scalar v) →
        keyTokens filters k = [k, jsScalarToString v]) ∧
    filterParts climateFilters = ["q", "climate", "type", "article", "dataset"] ∧
    filterString climateFilters = "q|climate|type|article|dataset" := by
  refine ⟨?_, ?_, ?_, by decide, by decide⟩
  · intro filters s hs
    rw [generateExplorerDigest_ok filters s hs, filterString, filterParts_def]
  · intro filters k vs h
    simp [keyTokens, h]
  · intro filters k v h
    simp [keyTokens, h]

/-- Witness for C2: the canonical-string form of the digest at the spec's
worked example. -/
theorem c2_witness :
    generateExplorerDigest climateFilters validSecret =
      Except.ok (hexEncode (hmacSha1 (utf8Bytes validSecret)
        (utf8Bytes (String.intercalate "|"
          ((filterKeys climateFilters).flatMap (keyTokens climateFilters)))))) :=
  c2_canonical_string.1 climateFilters validSecret (by decide)

/-- C3: the function errors exactly when the secret is empty (or missing,
which behaves identically) or shorter than 16 UTF-16 units, with the same
error for every filter set; on a valid secret it always succeeds, whatever
the filters contain. -/
theorem c3_secret_validation (filters : FilterSet) (s : String) :
    ((s = "" ∨ jsLength s < 16) →
      generateExplorerDigest filters s = Except.error digestErrorMessage) ∧
    (16 ≤ jsLength s → ∃ d, generateExplorerDigest filters s = Except.ok d) ∧
    ((∃ e, generateExplorerDigest filters s = Except.error e) ↔ jsLength s < 16) := by
  refine ⟨?_, ?_, ?_, ?_⟩
  · intro h
    unfold generateExplorerDigest
    rw [if_pos h]
  · intro h
    exact ⟨_, generateExplorerDigest_ok filters s h⟩
  · rintro ⟨e, he⟩
    by_contra hc
    push_neg at hc
    rw [generateExplorerDigest_ok filters s hc] at he
    exact absurd he (by simp)
  · intro h
    refine ⟨digestErrorMessage, ?_⟩
    unfold generateExplorerDigest
    rw [if_pos (Or.inr h)]

/-- Witness for C3: a short secret errors on a nonempty filter set, and the
repository's valid secret succeeds. -/
theorem c3_witness :
    generateExplorerDigest [("q", FilterValue.scalar (JsScalar.str "test"))] "short" =
      Except.error digestErrorMessage ∧
    ∃ d, generateExplorerDigest [] validSecret = Except.ok d :=
  ⟨(c3_secret_validation _ "short").1 (Or.inr (by decide)),
   (c3_secret_validation [] validSecret).2.1 (by decide)⟩

/-- C4: permuting the insertion order of the entries of a filter set (whose
keys are unique, as in a JS object) does not change the digest under a
valid secret. -/
theorem c4_insertion_order_irrelevant (l1 l2 : FilterSet) (s : String)
    (hsec : 16 ≤ jsLength s) (hperm : l1.Perm l2)
    (hnodup : (l1.map Prod.fst).Nodup) :
    generateExplorerDigest l1 s = generateExplorerDigest l2 s := by
  apply generateExplorerDigest_congr
  apply filterParts_congr
  · exact filterKeys_eq_of_perm ((hperm.map Prod.fst).filter _)
  · intro k _
    exact lookup_eq_of_perm hperm hnodup k

/-- Witness for C4: the repository's key-order test case. -/
theorem c4_witness :
    generateExplorerDigest
        [("timeframe", FilterValue.scalar (JsScalar.str "1w")),
         ("q", FilterValue.scalar (JsScalar.str "test")),
         ("scope", FilterValue.scalar (JsScalar.str "all"))] validSecret =
      generateExplorerDigest
        [("q", FilterValue.scalar (JsScalar.str "test")),
         ("scope", FilterValue.scalar (JsScalar.str "all")),
         ("timeframe", FilterValue.scalar (JsScalar.str "1w"))] validSecret :=
  c4_insertion_order_irrelevant _ _ _ (by decide) (by decide) (by decide)

/-- C5 counterexample: with one key U+FFFF and one key U+10000, the code's
sort (JS UTF-16 code-unit order) puts the U+10000 key first, although in
code-point order U+FFFF < U+10000; so the produced key list is not sorted
ascending by code point, refuting the claimed order. -/
theorem c5_counterexample :
    filterKeys c5Filters = [astralKey, bmpMaxKey] ∧
    specCodepointLt bmpMaxKey astralKey = true ∧
    ¬ List.Pairwise (fun a b => specCodepointLt a b = true) (filterKeys c5Filters) := by
  refine ⟨by decide, by decide, ?_⟩
  intro h
  rw [show filterKeys c5Filters = [astralKey, bmpMaxKey] from by decide] at h
  have h2 := List.pairwise_cons.mp h
  have h3 := h2.1 bmpMaxKey (List.mem_singleton.mpr rfl)
  exact absurd h3 (by decide)

/-- C5 amended: the remaining keys are sorted ascending by UTF-16 code-unit
lexicographic order (the JS default sort); this coincides with code-point
order whenever every character involved is below U+10000, and
numeric-looking keys are compared as strings, not as numbers. -/
theorem c5_utf16_sort :
    (∀ filters, List.Sorted jsKeyLe (filterKeys filters)) ∧
    (∀ s t, (∀ c ∈ s.data, c.toNat < 0x10000) → (∀ c ∈ t.data, c.toNat < 0x10000) →
      jsStrLt s t = specCodepointLt s t) ∧
    filterKeys [("10", FilterValue.scalar (JsScalar.num 10)),
      ("9", FilterValue.scalar (JsScalar.num 9))] = ["10", "9"] :=
  ⟨filterKeys_sorted, fun _ _ hs ht => jsStrLt_eq_codepoint hs ht, by decide⟩

/-- Witness for C5: on all-BMP keys the code's comparison agrees with
code-point comparison. -/
theorem c5_witness :
    jsStrLt "page" "q" = specCodepointLt "page" "q" :=
  c5_utf16_sort.2.1 "page" "q" (by decide) (by decide)

set_option maxRecDepth 1000000 in
set_option maxHeartbeats 4000000 in
/-- C6: an empty filter set, or one that is empty after exclusion, is still
signed: the result is the HMAC-SHA1 of the empty string under the secret,
and for the repository's test secret it equals a fixed 40-character pin
(cross-checked against an independent HMAC-SHA1 implementation). -/
theorem c6_empty_filters (filters : FilterSet) (s : String)
    (hsec : 16 ≤ jsLength s) (hempty : nonExcludedKeys filters = []) :
    generateExplorerDigest filters s =
      Except.ok (hexEncode (hmacSha1 (utf8Bytes s) (utf8Bytes ""))) ∧
    generateExplorerDigest [] validSecret =
      Except.ok "7ee76f765974ed27b6295549f1fc5925d8798a06" := by
  constructor
  · rw [generateExplorerDigest_ok filters s hsec]
    have hk : filterKeys filters = [] := by
      rw [filterKeys_def, hempty]
      rfl
    have hp : filterParts filters = [] := by
      rw [filterParts_def, hk]
      rfl
    rw [filterString, hp]
    rfl
  · rw [generateExplorerDigest_ok [] validSecret (by decide)]
    exact congrArg Except.ok (by decide)

/-- Witness for C6: the empty filter set under the repository secret. -/
theorem c6_witness :
    generateExplorerDigest [] validSecret =
      Except.ok (hexEncode (hmacSha1 (utf8Bytes validSecret) (utf8Bytes ""))) :=
  (c6_empty_filters [] validSecret (by decide) (by decide)).1

/-- C7 counterexample: at `10 ^ 21` ECMA-262 stringification switches to
exponential notation, so the value `1e21` is tokenized as `1e+21`, not as
its canonical decimal form: the unbounded claim fails. -/
theorem c7_counterexample :
    jsIntToString 1000000000000000000000 = "1e+21" ∧
    jsIntToString 1000000000000000000000 ≠ natDec 1000000000000000000000 ∧
    filterParts [("a", FilterValue.scalar (JsScalar.num 1000000000000000000000))] =
      ["a", "1e+21"] :=
  ⟨by decide, by decide, by decide⟩

/-- C7 amended: an integral number value of magnitude below `10 ^ 21` is
emitted as its canonical decimal string token: it appears verbatim among
the tokens, equals the plain decimal digit string (with a sign when
negative), contains no comma, has no leading zero when positive, and the
integer 100 contributes the token `100`.  At or above `10 ^ 21` the code
emits exponential notation instead. -/
theorem c7_decimal_tokens_bounded :
    (∀ filters k n, filters.lookup k = some (FilterValue.scalar (JsScalar.num n)) →
      k ∈ filterKeys filters → jsIntToString n ∈ filterParts filters) ∧
    (∀ n : Int, 0 ≤ n → n.natAbs < 10 ^ 21 → jsIntToString n = natDec n.toNat) ∧
    (∀ n : Int, n < 0 → n.natAbs < 10 ^ 21 →
      jsIntToString n = "-" ++ natDec n.natAbs) ∧
    (∀ n : Int, n.natAbs < 10 ^ 21 → ',' ∉ (jsIntToString n).data) ∧
    (∀ n : Int, 0 < n → n.natAbs < 10 ^ 21 →
      ((jsIntToString n).data).head? ≠ some '0') ∧
    jsIntToString 100 = "100" := by
  refine ⟨?_, ?_, ?_, jsIntToString_no_comma,
    fun n h hb => jsIntToString_head_pos h hb, by decide⟩
  · intro filters k n hl hk
    rw [filterParts_def]
    exact List.mem_flatMap.mpr ⟨k, hk, by simp [keyTokens, hl, jsScalarToString]⟩
  · intro n h hb
    have hb2 : n.toNat < 10 ^ 21 := by omega
    unfold jsIntToString
    rw [if_neg (by omega), jsNatToString_of_lt hb2]
  · intro n h hb
    unfold jsIntToString
    rw [if_pos h, jsNatToString_of_lt hb]

/-- Witness for C7: the token of the value 100 appears in the parts list,
and 100 stringifies to its plain decimal form. -/
theorem c7_witness :
    jsIntToString 100 ∈ filterParts [("score", FilterValue.scalar (JsScalar.num 100))] ∧
    jsIntToString 100 = natDec (100 : Int).toNat :=
  ⟨c7_decimal_tokens_bounded.1 _ "score" 100 (by decide) (by decide),
   c7_decimal_tokens_bounded.2.1 100 (by decide) (by decide)⟩

/-- C8: under a valid secret the digest is a string of exactly 40
characters, each a lowercase hexadecimal digit (20 HMAC-SHA1 bytes, two
hex characters per byte). -/
theorem c8_digest_shape (filters : FilterSet) (s : String)
    (hsec : 16 ≤ jsLength s) :
    ∃ d, generateExplorerDigest filters s = Except.ok d ∧
      d.length = 40 ∧ ∀ c ∈ d.data, c ∈ hexDigits := by
  refine ⟨_, generateExplorerDigest_ok filters s hsec, ?_, hexEncode_chars _⟩
  rw [hexEncode_length, hmacSha1_length]

/-- Witness for C8: the shape of the digest of the empty filter set. -/
theorem c8_witness :
    ∃ d, generateExplorerDigest [] validSecret = Except.ok d ∧
      d.length = 40 ∧ ∀ c ∈ d.data, c ∈ hexDigits :=
  c8_digest_shape [] validSecret (by decide)

/-- C9: replacing a scalar value by the one-element list holding it (with
everything else equal) does not change the digest: positional flattening
makes a scalar and a singleton list indistinguishable in the canonical
string. -/
theorem c9_scalar_singleton (pre post : FilterSet) (k : String) (v : JsScalar)
    (s : String) (hsec : 16 ≤ jsLength s) :
    generateExplorerDigest (pre ++ (k, FilterValue.scalar v) :: post) s =
      generateExplorerDigest (pre ++ (k, FilterValue.list [v]) :: post) s := by
  apply generateExplorerDigest_congr
  apply filterParts_congr_tokens
  · have hm : (pre ++ (k, FilterValue.scalar v) :: post).map Prod.fst =
        (pre ++ (k, FilterValue.list [v]) :: post).map Prod.fst := by
      simp
    rw [filterKeys_def, filterKeys_def, nonExcludedKeys, nonExcludedKeys, hm]
  · intro key _
    rcases lookup_append_cons pre post k key (FilterValue.scalar v)
        (FilterValue.list [v]) with h | ⟨h1, h2⟩
    · unfold keyTokens
      rw [h]
    · unfold keyTokens
      rw [h1, h2]
      rfl

/-- Witness for C9: `q: "x"` and `q: ["x"]` digest identically. -/
theorem c9_witness :
    generateExplorerDigest [("q", FilterValue.scalar (JsScalar.str "x"))] validSecret =
      generateExplorerDigest [("q", FilterValue.list [JsScalar.str "x"])] validSecret :=
  c9_scalar_singleton [] [] "q" (JsScalar.str "x") validSecret (by decide)

set_option maxRecDepth 1000000 in
set_option maxHeartbeats 8000000 in
/-- C10: exclusion strips only top-level keys named `order`, `page[number]`
or `page[size]`: a value (scalar or list element) equal to such a name
still appears as a token of the canonical string, and concretely a value
`order` changes the digest relative to a different value. -/
theorem c10_exclusion_top_level_only :
    (∀ filters k v, filters.lookup k = some (FilterValue.scalar v) →
        k ∈ filterKeys filters → jsScalarToString v ∈ filterParts filters) ∧
    (∀ filters k vs v, filters.lookup k = some (FilterValue.list vs) →
        v ∈ vs → k ∈ filterKeys filters → jsScalarToString v ∈ filterParts filters) ∧
    filterParts [("q", FilterValue.scalar (JsScalar.str "order"))] = ["q", "order"] ∧
    generateExplorerDigest [("q", FilterValue.scalar (JsScalar.str "order"))] validSecret ≠
      generateExplorerDigest [("q", FilterValue.scalar (JsScalar.str "plain"))] validSecret := by
  refine ⟨?_, ?_, by decide, ?_⟩
  · intro filters k v hl hk
    rw [filterParts_def]
    exact List.mem_flatMap.mpr ⟨k, hk, by simp [keyTokens, hl]⟩
  · intro filters k vs v hl hv hk
    rw [filterParts_def]
    refine List.mem_flatMap.mpr ⟨k, hk, ?_⟩
    unfold keyTokens
    rw [hl]
    exact List.mem_cons_of_mem _ (List.mem_map_of_mem _ hv)
  · intro h
    rw [generateExplorerDigest_ok _ _ (by decide),
      generateExplorerDigest_ok _ _ (by decide)] at h
    exact absurd (Except.ok.inj h) (by decide)

/-- Witness for C10: the value `order` of key `q` survives as a token. -/
theorem c10_witness :
    jsScalarToString (JsScalar.str "order") ∈
      filterParts [("q", FilterValue.scalar (JsScalar.str "order"))] :=
  c10_exclusion_top_level_only.1 _ "q" (JsScalar.str "order") (by decide) (by decide)
